import Mathlib

/-!
Shallow embedding of a statutory-interest calculator (src/app.py and
src/rates_loader.py) and proofs about its segmentation, accumulation,
ingestion and request-orchestration behaviour.

Dates are modelled by their proleptic Gregorian ordinals, exactly as the
Python datetime library represents them internally: comparison, difference
in days and adding one calendar day are then integer operations that agree
with datetime. Monetary and rate arithmetic is modelled over the rationals;
the Python builtin round(x, 2) is modelled by rounding at two decimals
(the values appearing in the concrete claims below are never half-cent
ties, the only place where binary floating point could round differently).
-/

namespace Calc395

/-- A calendar date, represented by its proleptic Gregorian ordinal
(the value Python date.toordinal returns). -/
abbrev Date := ℤ

/-- A rate step: (effective date, key rate in percent per annum). -/
abbrev Step := Date × ℚ

/-- A segment (p_start, p_end, rate) as produced by split_by_rate_steps. -/
abbrev Seg := Date × Date × ℚ

/-- Gregorian leap-year test. -/
def isLeapYear (y : ℕ) : Bool :=
  y % 4 == 0 && (y % 100 != 0 || y % 400 == 0)

/-- Days before the first day of month m in a non-leap year. -/
def daysBeforeMonth (m : ℕ) : ℕ :=
  [0, 31, 59, 90, 120, 151, 181, 212, 243, 273, 304, 334].getD (m - 1) 0

/-- Proleptic Gregorian ordinal of a calendar date (0001-01-01 is day 1),
the same value Python date.toordinal computes. Used to instantiate the
concrete dates appearing in the claims. -/
def dateOrd (y m d : ℕ) : Date :=
  ((365 * (y - 1) + (y - 1) / 4 - (y - 1) / 100 + (y - 1) / 400
    + daysBeforeMonth m + (if isLeapYear y = true ∧ 2 < m then 1 else 0) + d : ℕ) : ℤ)

/-- The scan of split_by_rate_steps that finds the index of the rate
applicable at cur: it walks the list, remembering in acc the last index
whose date is at or before cur, and stops at the first later date.
The argument i is the index of the head of the remaining list in the
original list; the initial call is with i = 0 and acc = 0. -/
def applicableIdx (cur : Date) : List Step → ℕ → ℕ → ℕ
  | [], _, acc => acc
  | s :: rest, i, acc =>
      if s.1 ≤ cur then applicableIdx cur rest (i + 1) i else acc

/-- The cursor loop of split_by_rate_steps: the steps from the applicable
index onward are passed as a suffix list. Each iteration emits a segment
from the cursor to the earlier of the range end and the next step date,
then advances the cursor there, while the cursor is before the range end
and steps remain. -/
def splitLoop (endD : Date) : Date → List Step → List Seg
  | _, [] => []
  | cur, s :: rest =>
      if cur < endD then
        let pEnd := match rest with
          | [] => endD
          | t :: _ => min endD t.1
        (cur, pEnd, s.2) :: splitLoop endD pEnd rest
      else []

/-- _split_by_rate_steps from src/app.py: split [start, endD) by the
step-change dates of the key rate. -/
def split_by_rate_steps (start endD : Date) (steps : List Step) : List Seg :=
  if steps = [] then []
  else splitLoop endD start (steps.drop (applicableIdx start steps 0 0))

/-- The two accepted day-count labels; both behave identically. -/
inductive DayCount where
  | d365
  | act365
deriving DecidableEq

/-- _days_between from src/app.py: number of days in [a, b), end excluded. -/
def days_between (a b : Date) : ℤ := b - a

/-- _day_basis from src/app.py: both labels use the 365 denominator. -/
def day_basis (days : ℤ) (_basis : DayCount) : ℚ := (days : ℚ) / 365

/-- The Python builtin round at two decimal places, over the rationals:
round half up at the second decimal. Python rounds half to even on the
binary representation; the two agree away from exact half-cent ties, and
no value appearing in the claims below is such a tie. -/
def round2 (x : ℚ) : ℚ := ((⌊x * 100 + 1 / 2⌋ : ℤ) : ℚ) / 100

/-- One line of the response: the Python field named end is called stop
here because end is a reserved word. -/
structure PeriodItem where
  start : Date
  stop : Date
  rate : ℚ
  days : ℤ
  interest : ℚ
deriving DecidableEq

/-- The calc395 response payload. -/
structure CalcResponse where
  periods : List PeriodItem
  total : ℚ
deriving DecidableEq

/-- One iteration of the accumulation loop of calc395: skip a piece with a
non-positive day count, otherwise append a period carrying the per-segment
interest rounded to 2 decimals and add the unrounded interest to the
running total. -/
def accumStep (amount : ℚ) (basis : DayCount) (acc : List PeriodItem × ℚ)
    (p : Seg) : List PeriodItem × ℚ :=
  let days := days_between p.1 p.2.1
  if days ≤ 0 then acc
  else
    let fraction := day_basis days basis
    let interest := amount * (p.2.2 / 100) * fraction
    (acc.1 ++ [⟨p.1, p.2.1, p.2.2, days, round2 interest⟩], acc.2 + interest)

/-- The accumulation loop of calc395 over all pieces, starting from an
empty period list and a zero running total. -/
def accumulate (amount : ℚ) (basis : DayCount) (pieces : List Seg) :
    List PeriodItem × ℚ :=
  pieces.foldl (accumStep amount basis) ([], 0)

/-- The pieces calc395 feeds to its accumulation loop for a non-empty
schedule: the computed segmentation, replaced by a single whole-range
segment at the earliest known rate when the segmentation is empty and the
first step postdates the start date. -/
def piecesFor (startD endD : Date) (s0 : Step) (rest : List Step) : List Seg :=
  let pieces := split_by_rate_steps startD endD (s0 :: rest)
  if pieces = [] ∧ startD < s0.1 then [(startD, endD, s0.2)] else pieces

/-- The error text raised by calc395 when no rate data is available. -/
def noRatesMsg : String :=
  "No key-rate data available. Set RATES_URL to a public CSV/JSON with columns: date_from,key_rate"

/-- calc395 from src/app.py. The stepsResult argument models the outcome
of awaiting rates.get_steps(): ok with the schedule when it returns, error
when fetching raises, in which case the exception propagates. The
end-inclusive flag adds one day before anything else; an empty range
returns early, before the schedule is consulted; an empty schedule raises. -/
def calc395 (amount : ℚ) (startDate endDate : Date) (endInclusive : Bool)
    (basis : DayCount) (stepsResult : Except String (List Step)) :
    Except String CalcResponse :=
  let e := if endInclusive then endDate + 1 else endDate
  if e ≤ startDate then .ok ⟨[], 0⟩
  else
    match stepsResult with
    | .error msg => .error msg
    | .ok [] => .error noRatesMsg
    | .ok (s0 :: rest) =>
        let res := accumulate amount basis (piecesFor startDate e s0 rest)
        .ok ⟨res.1, round2 res.2⟩

/-- The mutable state of RatesProvider: the cached schedule and the
timestamp (in seconds) of the last successful fetch. -/
structure ProviderState where
  cache : List Step
  lastFetch : Option ℤ
deriving DecidableEq

/-- The sort performed at the end of _fetch and inside set_steps: the
Python stable sort with the effective date as key. -/
def sortSteps (steps : List Step) : List Step :=
  List.insertionSort (fun p q => p.1 ≤ q.1) steps

/-- set_steps from src/rates_loader.py: install the given steps, sorted by
date, as the cache and stamp the fetch time to now. -/
def set_steps (steps : List Step) (now : ℤ) : ProviderState :=
  ⟨sortSteps steps, some now⟩

/-- One cleaned row of the rate table: a step when both the date and the
rate parsed, nothing when either failed (the row is dropped). -/
def parseRow (r : Option Date × Option ℚ) : Option Step :=
  match r with
  | (some d, some k) => some (d, k)
  | _ => none

/-- The final stage of _fetch: rows whose date or rate failed to parse are
dropped, the survivors are collected into steps and sorted ascending by
date. Rows arrive as already-cleaned optional (date, rate) pairs. -/
def fetch_rows (rows : List (Option Date × Option ℚ)) : List Step :=
  sortSteps (rows.filterMap parseRow)

/-- The staleness test of get_steps: no prior fetch, or more than
refreshSeconds elapsed since the last one. -/
def isStale (refreshSeconds : ℤ) (st : ProviderState) (now : ℤ) : Bool :=
  match st.lastFetch with
  | none => true
  | some t => decide (refreshSeconds < now - t)

/-- get_steps from src/rates_loader.py as a state transition. The
fetchResult argument models the outcome of awaiting _fetch: ok with the
parsed steps, error when the fetch or parse raises. On a stale cache a
fetch is attempted; if it raises, the exception propagates before either
assignment runs, so cache and timestamp keep their previous values. -/
def get_steps (refreshSeconds : ℤ) (st : ProviderState) (now : ℤ)
    (fetchResult : Except String (List Step)) :
    Except String (List Step) × ProviderState :=
  if isStale refreshSeconds st now then
    match fetchResult with
    | .error e => (.error e, st)
    | .ok s => (.ok s, ⟨s, some now⟩)
  else (.ok st.cache, st)

/-- The unrounded interest of one segment, as computed inside the
accumulation loop. -/
def rawInterest (amount : ℚ) (basis : DayCount) (p : Seg) : ℚ :=
  amount * (p.2.2 / 100) * day_basis (days_between p.1 p.2.1) basis

/-- The per-period list the accumulation loop builds: the positive-length
pieces, each with its day count and its interest rounded to 2 decimals. -/
def periodsOf (amount : ℚ) (basis : DayCount) (pieces : List Seg) :
    List PeriodItem :=
  (pieces.filter (fun p => decide (0 < days_between p.1 p.2.1))).map
    (fun p => ⟨p.1, p.2.1, p.2.2, days_between p.1 p.2.1,
      round2 (rawInterest amount basis p)⟩)

/-- The sum of the unrounded interests of the positive-length pieces. -/
def rawTotal (amount : ℚ) (basis : DayCount) (pieces : List Seg) : ℚ :=
  ((pieces.filter (fun p => decide (0 < days_between p.1 p.2.1))).map
    (rawInterest amount basis)).sum

/-- Modelled from the spec wording of the rounding law, for comparison with
the code (which it does not match): total = round(sum of per-segment
interests each already rounded to 2 decimals, 2). -/
def specLawTotal (amount : ℚ) (basis : DayCount) (pieces : List Seg) : ℚ :=
  round2 (((pieces.filter (fun p => decide (0 < days_between p.1 p.2.1))).map
    (fun p => round2 (rawInterest amount basis p))).sum)

/-- Contiguous exact coverage: the segments start at a, each is non-empty,
each begins where the previous one ended, and the last one ends at b.
This single predicate packages sortedness, contiguity, absence of overlap,
absence of zero-length segments and exact coverage of [a, b). -/
def coversFrom (a : Date) : List Seg → Date → Prop
  | [], b => a = b
  | p :: rest, b => p.1 = a ∧ a < p.2.1 ∧ coversFrom p.2.1 rest b

/-- Evaluation rule for round2 through the floor characterisation. -/
theorem round2_eq (x : ℚ) (n : ℤ) (h1 : (n : ℚ) ≤ x * 100 + 1 / 2)
    (h2 : x * 100 + 1 / 2 < n + 1) : round2 x = (n : ℚ) / 100 := by
  unfold round2
  rw [Int.floor_eq_iff.mpr ⟨h1, by exact_mod_cast h2⟩]

/-- The accumulation loop from an arbitrary accumulator: it appends the
periods of the positive-length pieces and adds the sum of their unrounded
interests to the running total. -/
theorem foldl_accumStep (amount : ℚ) (basis : DayCount) :
    ∀ (pieces : List Seg) (ps : List PeriodItem) (t : ℚ),
      pieces.foldl (accumStep amount basis) (ps, t) =
        (ps ++ periodsOf amount basis pieces, t + rawTotal amount basis pieces) := by
  intro pieces
  induction pieces with
  | nil => intro ps t; simp [periodsOf, rawTotal]
  | cons p rest ih =>
      intro ps t
      by_cases hd : days_between p.1 p.2.1 ≤ 0
      · have hdec : decide (0 < days_between p.1 p.2.1) = false := by
          simp only [decide_eq_false_iff_not]
          omega
        simp only [List.foldl_cons, accumStep, if_pos hd, ih,
          periodsOf, rawTotal, List.filter_cons, hdec, Bool.false_eq_true,
          if_false]
      · have hdec : decide (0 < days_between p.1 p.2.1) = true := by
          simp only [decide_eq_true_eq]
          omega
        simp only [List.foldl_cons, accumStep, if_neg hd, ih,
          periodsOf, rawTotal, List.filter_cons, hdec, if_true,
          List.map_cons, List.sum_cons]
        simp [rawInterest, add_assoc]

/-- accumulate returns exactly the rounded periods of the positive-length
pieces and, as its second component, the unrounded total. -/
theorem accumulate_eq (amount : ℚ) (basis : DayCount) (pieces : List Seg) :
    accumulate amount basis pieces =
      (periodsOf amount basis pieces, rawTotal amount basis pieces) := by
  unfold accumulate
  rw [foldl_accumStep]
  simp

/-- Unfolding rule for the index scan on a cons cell. -/
theorem applicableIdx_cons (cur : Date) (s : Step) (rest : List Step)
    (i acc : ℕ) :
    applicableIdx cur (s :: rest) i acc =
      (if s.1 ≤ cur then applicableIdx cur rest (i + 1) i else acc) := rfl

/-- The index scan never goes past the list: the result is either the
incoming accumulator or an offset of i by strictly less than the length
of the remaining list. Holds for arbitrary, not necessarily sorted, input. -/
theorem applicableIdx_bound :
    ∀ (l : List Step) (cur : Date) (i acc : ℕ),
      applicableIdx cur l i acc = acc ∨
        ∃ j, j < l.length ∧ applicableIdx cur l i acc = i + j := by
  intro l
  induction l with
  | nil => intro cur i acc; left; rfl
  | cons s rest ih =>
      intro cur i acc
      by_cases hs : s.1 ≤ cur
      · right
        rcases ih cur (i + 1) i with h | ⟨j, hj, hjv⟩
        · exact ⟨0, by simp, by simp [applicableIdx, if_pos hs, h]⟩
        · exact ⟨j + 1, by simp [Nat.succ_lt_succ hj],
            by simp only [applicableIdx, if_pos hs, hjv]; omega⟩
      · left; simp [applicableIdx, if_neg hs]

/-- When the head of the (remaining) list is applicable at cur, the scan
returns the index of some applicable element and every element, if any,
right after it has a date strictly past cur: the scan breaks exactly at
the first date past cur. Holds for arbitrary, not necessarily sorted,
input. -/
theorem applicableIdx_spec :
    ∀ (l : List Step) (cur : Date) (i acc : ℕ),
      l ≠ [] → (∀ x ∈ l.head?, x.1 ≤ cur) →
      ∃ j, j < l.length ∧ applicableIdx cur l i acc = i + j ∧
        ∀ x ∈ (l.drop (j + 1)).head?, cur < x.1 := by
  intro l
  induction l with
  | nil => intro cur i acc h; exact absurd rfl h
  | cons s rest ih =>
      intro cur i acc _ hhead
      have hs : s.1 ≤ cur := hhead s rfl
      match rest with
      | [] =>
          refine ⟨0, by simp, ?_, by simp⟩
          simp [applicableIdx, if_pos hs]
      | t :: rest2 =>
          by_cases ht : t.1 ≤ cur
          · rcases ih cur (i + 1) i (by simp) (by simpa using ht)
              with ⟨j, hj, hjv, hnext⟩
            refine ⟨j + 1, by simpa using Nat.succ_lt_succ hj, ?_, ?_⟩
            · rw [applicableIdx_cons, if_pos hs, hjv]; omega
            · simpa using hnext
          · refine ⟨0, by simp, ?_, ?_⟩
            · rw [applicableIdx_cons, if_pos hs, applicableIdx_cons, if_neg ht]
              omega
            · simpa using not_le.mp ht

/-- The cursor loop, started strictly before the range end on a non-empty
strictly sorted suffix whose second element (if any) lies strictly past
the cursor, produces a contiguous exact cover of [cur, b). -/
theorem splitLoop_covers :
    ∀ (l : List Step) (b cur : Date), cur < b → l ≠ [] →
      List.Pairwise (fun p q : Step => p.1 < q.1) l →
      (∀ q ∈ l.tail.head?, cur < q.1) →
      coversFrom cur (splitLoop b cur l) b := by
  intro l
  induction l with
  | nil => intro b cur _ h; exact absurd rfl h
  | cons s rest ih =>
      intro b cur hcb _ hpw hnext
      match rest with
      | [] =>
          simp only [splitLoop, if_pos hcb]
          exact ⟨rfl, hcb, rfl⟩
      | t :: rest2 =>
          have hct : cur < t.1 := hnext t (by simp)
          simp only [splitLoop, if_pos hcb]
          refine ⟨rfl, lt_min hcb hct, ?_⟩
          rcases le_or_lt b t.1 with hb | hb
          · rw [min_eq_left hb]
            show coversFrom b (splitLoop b b (t :: rest2)) b
            simp [splitLoop, lt_irrefl]
            rfl
          · rw [min_eq_right (le_of_lt hb)]
            refine ih b t.1 hb (by simp) (List.Pairwise.of_cons hpw) ?_
            intro q hq
            exact (List.pairwise_cons.mp (List.Pairwise.of_cons hpw)).1 q
              (List.mem_of_mem_head? hq)

/-- Every segment of a contiguous cover starting at a starts at or past a. -/
theorem coversFrom_le :
    ∀ (ps : List Seg) (a b : Date), coversFrom a ps b → ∀ q ∈ ps, a ≤ q.1 := by
  intro ps
  induction ps with
  | nil => intro a b _ q hq; cases hq
  | cons p rest ih =>
      intro a b h q hq
      rcases h with ⟨h1, h2, h3⟩
      rcases List.mem_cons.mp hq with rfl | hq2
      · exact le_of_eq h1.symm
      · exact le_trans (le_of_lt (h1 ▸ h2)) (ih p.2.1 b h3 q hq2)

/-- A contiguous cover is sorted: each segment ends at or before every
later segment starts (so segments never overlap). -/
theorem coversFrom_pairwise :
    ∀ (ps : List Seg) (a b : Date), coversFrom a ps b →
      List.Pairwise (fun p q : Seg => p.2.1 ≤ q.1) ps := by
  intro ps
  induction ps with
  | nil => intro a b _; exact List.Pairwise.nil
  | cons p rest ih =>
      intro a b h
      rcases h with ⟨_, _, h3⟩
      exact List.pairwise_cons.mpr ⟨coversFrom_le rest p.2.1 b h3, ih p.2.1 b h3⟩

/-- A contiguous cover has no zero-length segment. -/
theorem coversFrom_pos :
    ∀ (ps : List Seg) (a b : Date), coversFrom a ps b →
      ∀ p ∈ ps, p.1 < p.2.1 := by
  intro ps
  induction ps with
  | nil => intro a b _ p hp; cases hp
  | cons q rest ih =>
      intro a b h p hp
      rcases h with ⟨h1, h2, h3⟩
      rcases List.mem_cons.mp hp with rfl | hp2
      · exact h1 ▸ h2
      · exact ih q.2.1 b h3 p hp2

/-- The segmenter, run on a non-empty strictly sorted schedule whose first
step is at or before a, over a range a < b, produces a contiguous exact
cover of [a, b): segments are sorted, non-overlapping, each of positive
length, the first starts at a, each next one starts where the previous
ended, and the last ends at b, each carrying exactly one rate. -/
theorem split_covers_range (steps : List Step) (a b : Date)
    (hne : steps ≠ [])
    (hsorted : List.Pairwise (fun p q : Step => p.1 < q.1) steps)
    (hspan : ∀ s ∈ steps.head?, s.1 ≤ a) (hab : a < b) :
    coversFrom a (split_by_rate_steps a b steps) b ∧
      List.Pairwise (fun p q : Seg => p.2.1 ≤ q.1)
        (split_by_rate_steps a b steps) ∧
      ∀ p ∈ split_by_rate_steps a b steps, p.1 < p.2.1 := by
  rcases applicableIdx_spec steps a 0 0 hne hspan with ⟨j, hj, hjv, hnext⟩
  have hjv2 : applicableIdx a steps 0 0 = j := by omega
  have hsplit : split_by_rate_steps a b steps = splitLoop b a (steps.drop j) := by
    unfold split_by_rate_steps
    rw [if_neg hne, hjv2]
  have hdropne : steps.drop j ≠ [] := by
    intro h
    rw [List.drop_eq_nil_iff] at h
    omega
  have hdpw : List.Pairwise (fun p q : Step => p.1 < q.1) (steps.drop j) :=
    List.Pairwise.sublist (List.drop_sublist j steps) hsorted
  have htail : ∀ q ∈ (steps.drop j).tail.head?, a < q.1 := by
    rw [List.tail_drop]
    exact hnext
  have hcov : coversFrom a (split_by_rate_steps a b steps) b := by
    rw [hsplit]
    exact splitLoop_covers (steps.drop j) b a hab hdropne hdpw htail
  exact ⟨hcov, coversFrom_pairwise _ a b hcov, coversFrom_pos _ a b hcov⟩

/-- On any non-empty schedule, sorted or not, and any range a < b, the
segmenter returns at least one segment. -/
theorem split_nonempty (steps : List Step) (a b : Date)
    (hne : steps ≠ []) (hab : a < b) :
    split_by_rate_steps a b steps ≠ [] := by
  have hlen : 0 < steps.length := List.length_pos.mpr hne
  have hk : applicableIdx a steps 0 0 < steps.length := by
    rcases applicableIdx_bound steps a 0 0 with h | ⟨j, hj, hjv⟩
    · rw [h]; exact hlen
    · omega
  have hdropne : steps.drop (applicableIdx a steps 0 0) ≠ [] := by
    intro h
    rw [List.drop_eq_nil_iff] at h
    omega
  rcases List.exists_cons_of_ne_nil hdropne with ⟨x, l2, hx⟩
  unfold split_by_rate_steps
  rw [if_neg hne, hx]
  simp only [splitLoop, if_pos hab]
  exact List.cons_ne_nil _ _

/-- When the whole range precedes the first step, the segmenter still
segments: the rate of the first step applies from the range start up to the
earlier of the range end and the date of the second step, and the result is a
single whole-range segment exactly when no second step date cuts the
range. -/
theorem split_prestart_first_rate (s0 : Step) (rest : List Step)
    (a b : Date) (ha : a < s0.1) (hab : a < b) :
    (∃ tail, split_by_rate_steps a b (s0 :: rest) =
        (a, rest.head?.elim b (fun t => min b t.1), s0.2) :: tail) ∧
      ((∀ t ∈ rest.head?, b ≤ t.1) →
        split_by_rate_steps a b (s0 :: rest) = [(a, b, s0.2)]) := by
  have hidx : applicableIdx a (s0 :: rest) 0 0 = 0 := by
    rw [applicableIdx_cons, if_neg (not_le.mpr ha)]
  have hsplit : split_by_rate_steps a b (s0 :: rest) =
      splitLoop b a (s0 :: rest) := by
    unfold split_by_rate_steps
    rw [if_neg (List.cons_ne_nil s0 rest), hidx, List.drop_zero]
  cases rest with
  | nil =>
      constructor
      · exact ⟨[], by rw [hsplit]; simp [splitLoop, if_pos hab]⟩
      · intro _
        rw [hsplit]
        simp [splitLoop, if_pos hab]
  | cons t rest2 =>
      constructor
      · refine ⟨splitLoop b (min b t.1) (t :: rest2), ?_⟩
        rw [hsplit]
        simp [splitLoop, if_pos hab]
      · intro hb
        have hbt : b ≤ t.1 := hb t rfl
        rw [hsplit]
        simp only [splitLoop, if_pos hab]
        rw [min_eq_left hbt]
        simp [splitLoop, lt_irrefl]

instance stepLeDec : DecidableRel (fun p q : Step => p.1 ≤ q.1) :=
  fun p q => inferInstanceAs (Decidable (p.1 ≤ q.1))

instance stepLeTotal : IsTotal Step (fun p q : Step => p.1 ≤ q.1) :=
  ⟨fun a b => le_total a.1 b.1⟩

instance stepLeTrans : IsTrans Step (fun p q : Step => p.1 ≤ q.1) :=
  ⟨fun _ _ _ h1 h2 => le_trans h1 h2⟩

/-- The sort used by ingestion and by manual injection: its output is
sorted (non-strictly) by date, is a permutation of its input, and is
strictly sorted by date exactly when the input has no duplicate dates;
duplicate dates are preserved, not removed. -/
theorem sortSteps_spec (l : List Step) :
    List.Pairwise (fun p q : Step => p.1 ≤ q.1) (sortSteps l) ∧
      (sortSteps l).Perm l ∧
      ((l.map Prod.fst).Nodup →
        List.Pairwise (fun p q : Step => p.1 < q.1) (sortSteps l)) := by
  have hsorted : List.Pairwise (fun p q : Step => p.1 ≤ q.1) (sortSteps l) :=
    List.sorted_insertionSort (fun p q : Step => p.1 ≤ q.1) l
  have hperm : (sortSteps l).Perm l :=
    List.perm_insertionSort (fun p q : Step => p.1 ≤ q.1) l
  refine ⟨hsorted, hperm, fun hnd => ?_⟩
  have hnd2 : ((sortSteps l).map Prod.fst).Nodup :=
    ((List.Perm.map Prod.fst hperm).nodup_iff).mpr hnd
  have hne : List.Pairwise (fun p q : Step => p.1 ≠ q.1) (sortSteps l) :=
    List.pairwise_map.mp hnd2
  exact (List.Pairwise.and hsorted hne).imp
    (fun h => lt_of_le_of_ne h.1 h.2)

/-- For a non-degenerate (adjusted) range and a non-empty schedule,
calc395 returns ok with the rounded periods of its pieces and, as the
total, the independently rounded sum of their unrounded interests. -/
theorem calc395_ok_form (amount : ℚ) (startDate endDate : Date)
    (endInclusive : Bool) (basis : DayCount) (s0 : Step) (rest : List Step)
    (h : startDate < (if endInclusive then endDate + 1 else endDate)) :
    calc395 amount startDate endDate endInclusive basis (.ok (s0 :: rest)) =
      .ok ⟨periodsOf amount basis (piecesFor startDate
            (if endInclusive then endDate + 1 else endDate) s0 rest),
          round2 (rawTotal amount basis (piecesFor startDate
            (if endInclusive then endDate + 1 else endDate) s0 rest))⟩ := by
  unfold calc395
  rw [if_neg (not_le.mpr h)]
  dsimp only
  rw [accumulate_eq]

/-- An empty adjusted range returns ok with no periods and a zero total,
whatever the schedule outcome, even an error. -/
theorem calc395_empty_range (amount : ℚ) (startDate endDate : Date)
    (endInclusive : Bool) (basis : DayCount)
    (stepsResult : Except String (List Step))
    (h : (if endInclusive then endDate + 1 else endDate) ≤ startDate) :
    calc395 amount startDate endDate endInclusive basis stepsResult =
      .ok ⟨[], 0⟩ := by
  unfold calc395
  rw [if_pos h]

/-- A non-degenerate range with an empty schedule raises; a fetch error
propagates; neither produces an ok response. -/
theorem calc395_no_data (amount : ℚ) (startDate endDate : Date)
    (endInclusive : Bool) (basis : DayCount)
    (h : startDate < (if endInclusive then endDate + 1 else endDate)) :
    calc395 amount startDate endDate endInclusive basis (.ok []) =
        .error noRatesMsg ∧
      ∀ msg, calc395 amount startDate endDate endInclusive basis
        (.error msg) = .error msg := by
  constructor
  · unfold calc395
    rw [if_neg (not_le.mpr h)]
  · intro msg
    unfold calc395
    rw [if_neg (not_le.mpr h)]

theorem date20240301 : dateOrd 2024 3 1 = 738946 := by decide

theorem date20240726 : dateOrd 2024 7 26 = 739093 := by decide

theorem date20240901 : dateOrd 2024 9 1 = 739130 := by decide

/-- The pieces of the documented scenario: two segments split at the
date of the second step. -/
theorem scenario_pieces :
    piecesFor 738946 739130 (738946, 16) [(739093, 15)] =
      [(738946, 739093, 16), (739093, 739130, 15)] := by decide

/-- First-segment interest of the documented scenario:
10000000 x 16 percent x 147/365, rounded. -/
theorem scenario_interest1 :
    round2 (rawInterest 10000000 DayCount.d365 (738946, 739093, 16)) =
      64438356 / 100 := by
  rw [round2_eq (rawInterest 10000000 DayCount.d365 (738946, 739093, 16)) 64438356
    (by norm_num [rawInterest, days_between, day_basis])
    (by norm_num [rawInterest, days_between, day_basis])]
  norm_num

/-- Second-segment interest of the documented scenario:
10000000 x 15 percent x 37/365, rounded. -/
theorem scenario_interest2 :
    round2 (rawInterest 10000000 DayCount.d365 (739093, 739130, 15)) =
      15205479 / 100 := by
  rw [round2_eq (rawInterest 10000000 DayCount.d365 (739093, 739130, 15)) 15205479
    (by norm_num [rawInterest, days_between, day_basis])
    (by norm_num [rawInterest, days_between, day_basis])]
  norm_num

/-- Unrounded total of the documented scenario. -/
theorem scenario_rawTotal :
    rawTotal 10000000 DayCount.d365
      [(738946, 739093, 16), (739093, 739130, 15)] = 58140000 / 73 := by
  norm_num [rawTotal, rawInterest, days_between, day_basis]

/-- The total the code produces for the documented scenario: the unrounded sum,
rounded once. -/
theorem scenario_total : round2 ((58140000 : ℚ) / 73) = 79643836 / 100 := by
  rw [round2_eq ((58140000 : ℚ) / 73) 79643836 (by norm_num) (by norm_num)]
  norm_num

/-- The sum of the two rounded segment interests, rounded again, is one
cent lower than the total the code produces for the same scenario. -/
theorem scenario_specsum :
    round2 ((64438356 : ℚ) / 100 + 15205479 / 100) = 79643835 / 100 := by
  rw [round2_eq ((64438356 : ℚ) / 100 + 15205479 / 100) 79643835
    (by norm_num) (by norm_num)]
  norm_num

/-- The period rows of the documented scenario. -/
theorem scenario_periods :
    periodsOf 10000000 DayCount.d365
        [(738946, 739093, 16), (739093, 739130, 15)] =
      [⟨738946, 739093, 16, 147, 64438356 / 100⟩,
        ⟨739093, 739130, 15, 37, 15205479 / 100⟩] := by
  simp [periodsOf, days_between, scenario_interest1, scenario_interest2]

/-- Full run of the documented scenario through calc395. -/
theorem scenario_run :
    calc395 10000000 738946 739130 false DayCount.d365
        (.ok [(738946, 16), (739093, 15)]) =
      .ok ⟨[⟨738946, 739093, 16, 147, 64438356 / 100⟩,
            ⟨739093, 739130, 15, 37, 15205479 / 100⟩], 79643836 / 100⟩ := by
  rw [calc395_ok_form 10000000 738946 739130 false DayCount.d365
    (738946, 16) [(739093, 15)] (by norm_num)]
  simp only [Bool.false_eq_true, if_false, scenario_pieces, scenario_periods,
    scenario_rawTotal, scenario_total]

/-- Pieces for a range that starts before the first step and crosses the
date of the second step: two segments, not one. -/
theorem prestart_pieces :
    piecesFor 0 30 (10, 16) [(20, 15)] = [(0, 20, 16), (20, 30, 15)] := by
  decide

theorem prestart_interest1 :
    round2 (rawInterest 1000 DayCount.d365 (0, 20, 16)) = 877 / 100 := by
  rw [round2_eq (rawInterest 1000 DayCount.d365 (0, 20, 16)) 877
    (by norm_num [rawInterest, days_between, day_basis])
    (by norm_num [rawInterest, days_between, day_basis])]
  norm_num

theorem prestart_interest2 :
    round2 (rawInterest 1000 DayCount.d365 (20, 30, 15)) = 411 / 100 := by
  rw [round2_eq (rawInterest 1000 DayCount.d365 (20, 30, 15)) 411
    (by norm_num [rawInterest, days_between, day_basis])
    (by norm_num [rawInterest, days_between, day_basis])]
  norm_num

theorem prestart_rawTotal :
    rawTotal 1000 DayCount.d365 [(0, 20, 16), (20, 30, 15)] = 940 / 73 := by
  norm_num [rawTotal, rawInterest, days_between, day_basis]

theorem prestart_total : round2 ((940 : ℚ) / 73) = 1288 / 100 := by
  rw [round2_eq ((940 : ℚ) / 73) 1288 (by norm_num) (by norm_num)]
  norm_num

theorem prestart_periods :
    periodsOf 1000 DayCount.d365 [(0, 20, 16), (20, 30, 15)] =
      [⟨0, 20, 16, 20, 877 / 100⟩, ⟨20, 30, 15, 10, 411 / 100⟩] := by
  simp [periodsOf, days_between, prestart_interest1, prestart_interest2]

/-- Full run of a request whose range starts before the first step of a
two-step schedule and crosses the second step: the response carries two
segments with both rates, not one whole-range fallback segment. -/
theorem prestart_run :
    calc395 1000 0 30 false DayCount.d365 (.ok [(10, 16), (20, 15)]) =
      .ok ⟨[⟨0, 20, 16, 20, 877 / 100⟩, ⟨20, 30, 15, 10, 411 / 100⟩],
        1288 / 100⟩ := by
  rw [calc395_ok_form 1000 0 30 false DayCount.d365 (10, 16) [(20, 15)]
    (by norm_num)]
  simp only [Bool.false_eq_true, if_false, prestart_pieces, prestart_periods,
    prestart_rawTotal, prestart_total]

/-- C1, counterexample: on the documented two-segment scenario the total
of the code is 796438.36, while the claimed law round(sum of rounded segment
interests) gives 796438.35; the claim is false on this request. -/
theorem c1_rounding_law_counterexample :
    calc395 10000000 738946 739130 false DayCount.d365
        (.ok [(738946, 16), (739093, 15)]) =
      .ok ⟨[⟨738946, 739093, 16, 147, 64438356 / 100⟩,
            ⟨739093, 739130, 15, 37, 15205479 / 100⟩], 79643836 / 100⟩ ∧
    specLawTotal 10000000 DayCount.d365
        (piecesFor 738946 739130 (738946, 16) [(739093, 15)]) =
      79643835 / 100 ∧
    ((79643836 : ℚ) / 100) ≠ 79643835 / 100 := by
  refine ⟨scenario_run, ?_, by norm_num⟩
  rw [scenario_pieces]
  simp only [specLawTotal, days_between]
  norm_num [scenario_interest1, scenario_interest2]
  rw [round2_eq ((15928767 : ℚ) / 20) 79643835 (by norm_num) (by norm_num)]
  norm_num

/-- C1, amended: for every request with a non-degenerate adjusted range
and a non-empty schedule, the response total is round(sum of the
unrounded per-segment interests, 2); the per-segment rounding to 2
decimals applies only to the interest displayed on each period row. -/
theorem c1_total_rounds_unrounded_sum (amount : ℚ) (startDate endDate : Date)
    (endInclusive : Bool) (basis : DayCount) (s0 : Step) (rest : List Step)
    (h : startDate < (if endInclusive then endDate + 1 else endDate)) :
    calc395 amount startDate endDate endInclusive basis (.ok (s0 :: rest)) =
      .ok ⟨periodsOf amount basis (piecesFor startDate
            (if endInclusive then endDate + 1 else endDate) s0 rest),
          round2 (rawTotal amount basis (piecesFor startDate
            (if endInclusive then endDate + 1 else endDate) s0 rest))⟩ :=
  calc395_ok_form amount startDate endDate endInclusive basis s0 rest h

/-- Witness for C1 at the documented scenario. -/
theorem c1_total_rounds_unrounded_sum_witness :
    calc395 10000000 738946 739130 false DayCount.d365
        (.ok [(738946, 16), (739093, 15)]) =
      .ok ⟨periodsOf 10000000 DayCount.d365 (piecesFor 738946
            (if false then 739130 + 1 else 739130) (738946, 16) [(739093, 15)]),
          round2 (rawTotal 10000000 DayCount.d365 (piecesFor 738946
            (if false then 739130 + 1 else 739130) (738946, 16) [(739093, 15)]))⟩ :=
  c1_total_rounds_unrounded_sum 10000000 738946 739130 false DayCount.d365
    (738946, 16) [(739093, 15)] (by decide)

/-- C2, counterexample: schedule steps at dates 10 and 20, range [0, 30):
the range starts before the earliest step, yet the response carries two
segments with both rates, not a single fallback segment covering the whole
range at the earliest rate. -/
theorem c2_whole_range_fallback_counterexample :
    calc395 1000 0 30 false DayCount.d365 (.ok [(10, 16), (20, 15)]) =
      .ok ⟨[⟨0, 20, 16, 20, 877 / 100⟩, ⟨20, 30, 15, 10, 411 / 100⟩],
        1288 / 100⟩ ∧
    List.map (fun p => (p.start, p.stop, p.rate))
        [(⟨0, 20, 16, 20, 877 / 100⟩ : PeriodItem),
          ⟨20, 30, 15, 10, 411 / 100⟩] ≠
      [((0 : ℤ), (30 : ℤ), (16 : ℚ))] := by
  exact ⟨prestart_run, by decide⟩

/-- C2, amended: when the range starts before the earliest step, the
rate of the earliest step is used from the range start, but only up to the
earlier of the range end and the date of the second step; segmentation then
continues normally, and a single whole-range segment arises exactly when
no second step date cuts the range. -/
theorem c2_prestart_first_rate_amended (s0 : Step) (rest : List Step)
    (a b : Date) (ha : a < s0.1) (hab : a < b) :
    (∃ tail, split_by_rate_steps a b (s0 :: rest) =
        (a, rest.head?.elim b (fun t => min b t.1), s0.2) :: tail) ∧
      ((∀ t ∈ rest.head?, b ≤ t.1) →
        split_by_rate_steps a b (s0 :: rest) = [(a, b, s0.2)]) :=
  split_prestart_first_rate s0 rest a b ha hab

/-- Witness for C2, amended, on the two-step schedule of the
counterexample. -/
theorem c2_prestart_first_rate_amended_witness :
    (∃ tail, split_by_rate_steps 0 30 ((10, 16) :: [(20, 15)]) =
        (0, (List.head? [((20 : ℤ), (15 : ℚ))]).elim 30 (fun t => min 30 t.1),
          (16 : ℚ)) :: tail) ∧
      ((∀ t ∈ List.head? [((20 : ℤ), (15 : ℚ))], (30 : ℤ) ≤ t.1) →
        split_by_rate_steps 0 30 ((10, 16) :: [(20, 15)]) = [(0, 30, 16)]) :=
  c2_prestart_first_rate_amended (10, 16) [(20, 15)] 0 30 (by decide)
    (by decide)

/-- C5, counterexample: on the documented scenario the interest of the
first segment is not 644657.53 and the total is not 796712.32; the response is
not the claimed one. -/
theorem c5_scenario_counterexample :
    calc395 10000000 (dateOrd 2024 3 1) (dateOrd 2024 9 1) false
        DayCount.d365
        (.ok [(dateOrd 2024 3 1, 16), (dateOrd 2024 7 26, 15)]) ≠
      .ok ⟨[⟨dateOrd 2024 3 1, dateOrd 2024 7 26, 16, 147, 64465753 / 100⟩,
            ⟨dateOrd 2024 7 26, dateOrd 2024 9 1, 15, 37, 15205479 / 100⟩],
        79671232 / 100⟩ := by
  rw [date20240301, date20240726, date20240901, scenario_run]
  intro h
  simp only [Except.ok.injEq, CalcResponse.mk.injEq, List.cons.injEq,
    PeriodItem.mk.injEq] at h
  have := h.1.1.2.2.2.2
  norm_num at this

/-- C5, amended: the documented scenario yields the two documented
segments of 147 and 37 days at rates 16 and 15, but with interests
644383.56 and 152054.79 and total 796438.36 (the second figure as
documented, the first and the total corrected to the arithmetic of the code). -/
theorem c5_scenario_amended :
    calc395 10000000 (dateOrd 2024 3 1) (dateOrd 2024 9 1) false
        DayCount.d365
        (.ok [(dateOrd 2024 3 1, 16), (dateOrd 2024 7 26, 15)]) =
      .ok ⟨[⟨dateOrd 2024 3 1, dateOrd 2024 7 26, 16, 147, 64438356 / 100⟩,
            ⟨dateOrd 2024 7 26, dateOrd 2024 9 1, 15, 37, 15205479 / 100⟩],
        79643836 / 100⟩ := by
  rw [date20240301, date20240726, date20240901]
  exact scenario_run

/-- C3: on a non-empty schedule sorted strictly ascending by date, for a
range [a, b) with a < b starting at or after the first step, the segments
form a contiguous exact cover of [a, b): sorted, non-overlapping, covering
exactly [a, b), one rate per segment, no zero-length segment. -/
theorem c3_segments_cover_exactly (steps : List Step) (a b : Date)
    (hne : steps ≠ [])
    (hsorted : List.Pairwise (fun p q : Step => p.1 < q.1) steps)
    (hspan : ∀ s ∈ steps.head?, s.1 ≤ a) (hab : a < b) :
    coversFrom a (split_by_rate_steps a b steps) b ∧
      List.Pairwise (fun p q : Seg => p.2.1 ≤ q.1)
        (split_by_rate_steps a b steps) ∧
      ∀ p ∈ split_by_rate_steps a b steps, p.1 < p.2.1 :=
  split_covers_range steps a b hne hsorted hspan hab

/-- Witness for C3 on a concrete two-step schedule and range. -/
theorem c3_segments_cover_exactly_witness :
    coversFrom 5 (split_by_rate_steps 5 20 [((0 : ℤ), (16 : ℚ)), (10, 15)]) 20 ∧
      List.Pairwise (fun p q : Seg => p.2.1 ≤ q.1)
        (split_by_rate_steps 5 20 [((0 : ℤ), (16 : ℚ)), (10, 15)]) ∧
      ∀ p ∈ split_by_rate_steps 5 20 [((0 : ℤ), (16 : ℚ)), (10, 15)],
        p.1 < p.2.1 :=
  c3_segments_cover_exactly [(0, 16), (10, 15)] 5 20 (by decide) (by decide)
    (by decide) (by decide)

/-- C9: on any non-empty schedule and any range a < b the segmenter
returns at least one segment, so the guard pieces = [] in calc395 is
never true there and the whole-range fallback branch is dead code for
non-empty schedules. -/
theorem c9_split_never_empty (steps : List Step) (a b : Date)
    (hne : steps ≠ []) (hab : a < b) :
    split_by_rate_steps a b steps ≠ [] :=
  split_nonempty steps a b hne hab

/-- Witness for C9 on a schedule whose only step postdates the range. -/
theorem c9_split_never_empty_witness :
    split_by_rate_steps 0 5 [((10 : ℤ), (16 : ℚ))] ≠ [] :=
  c9_split_never_empty [(10, 16)] 0 5 (by decide) (by decide)

/-- C4, counterexample: set_steps and the final stage of ingestion keep
duplicate effective dates, so the produced schedule violates the
uniqueness half of the invariant when the raw input repeats a date. -/
theorem c4_duplicate_dates_counterexample :
    (set_steps [((0 : ℤ), (1 : ℚ)), (0, 2)] 0).cache = [(0, 1), (0, 2)] ∧
      fetch_rows [(some (0 : ℤ), some (1 : ℚ)), (some 0, some 2)] =
        [(0, 1), (0, 2)] ∧
      ¬ List.Pairwise (fun p q : Step => p.1 < q.1)
        [((0 : ℤ), (1 : ℚ)), (0, 2)] := by
  refine ⟨by decide, by decide, by decide⟩

/-- C4, amended: every schedule produced by ingestion or by set_steps is
sorted ascending (non-strictly) by effective date and is a permutation of
the (cleaned) input rows; effective dates are pairwise unique only when
the input contains no duplicate dates — duplicates are preserved, not
removed. -/
theorem c4_schedules_sorted_duplicates_kept (steps : List Step) (now : ℤ)
    (rows : List (Option Date × Option ℚ)) :
    (List.Pairwise (fun p q : Step => p.1 ≤ q.1) (set_steps steps now).cache ∧
      (set_steps steps now).cache.Perm steps ∧
      ((steps.map Prod.fst).Nodup →
        List.Pairwise (fun p q : Step => p.1 < q.1)
          (set_steps steps now).cache)) ∧
    (List.Pairwise (fun p q : Step => p.1 ≤ q.1) (fetch_rows rows) ∧
      (fetch_rows rows).Perm (rows.filterMap parseRow) ∧
      (((rows.filterMap parseRow).map Prod.fst).Nodup →
        List.Pairwise (fun p q : Step => p.1 < q.1) (fetch_rows rows))) :=
  ⟨sortSteps_spec steps, sortSteps_spec (rows.filterMap parseRow)⟩

/-- Witness for C4, amended: strict sortedness on a duplicate-free input. -/
theorem c4_schedules_sorted_duplicates_kept_witness :
    List.Pairwise (fun p q : Step => p.1 < q.1)
      (set_steps [((3 : ℤ), (5 : ℚ)), (1, 7)] 0).cache :=
  (c4_schedules_sorted_duplicates_kept [(3, 5), (1, 7)] 0 []).1.2.2 (by decide)

/-- C6: with a non-degenerate adjusted range, an empty schedule at
calculation time raises the no-data error and a failing fetch propagates
its error; neither is the empty-range zero result, which is a normal ok
response produced only for degenerate ranges. -/
theorem c6_empty_schedule_unavailable (amount : ℚ) (startDate endDate : Date)
    (endInclusive : Bool) (basis : DayCount)
    (h : startDate < (if endInclusive then endDate + 1 else endDate)) :
    calc395 amount startDate endDate endInclusive basis (.ok []) =
        .error noRatesMsg ∧
      (∀ msg, calc395 amount startDate endDate endInclusive basis
        (.error msg) = .error msg) ∧
      calc395 amount startDate endDate endInclusive basis (.ok []) ≠
        .ok ⟨[], 0⟩ := by
  rcases calc395_no_data amount startDate endDate endInclusive basis h
    with ⟨h1, h2⟩
  exact ⟨h1, h2, by rw [h1]; exact fun hc => Except.noConfusion hc⟩

/-- Witness for C6 on a concrete non-degenerate range. -/
theorem c6_empty_schedule_unavailable_witness :
    calc395 1 0 10 false DayCount.d365 (.ok []) = .error noRatesMsg ∧
      (∀ msg, calc395 1 0 10 false DayCount.d365 (.error msg) = .error msg) ∧
      calc395 1 0 10 false DayCount.d365 (.ok []) ≠ .ok ⟨[], 0⟩ :=
  c6_empty_schedule_unavailable 1 0 10 false DayCount.d365 (by decide)

/-- C7: an end-inclusive request for end date D is exactly the
end-exclusive request for D plus one calendar day, the shift happening
before anything else; the whole responses agree. -/
theorem c7_end_inclusive_equiv (amount : ℚ) (startDate endDate : Date)
    (basis : DayCount) (stepsResult : Except String (List Step)) :
    calc395 amount startDate endDate true basis stepsResult =
      calc395 amount startDate (endDate + 1) false basis stepsResult := rfl

/-- C8: when the cache is stale and the fetch (or its parse) raises, the
provider state is returned exactly unchanged — same cache, same last-fetch
timestamp — and the error propagates to the caller of ingestion. -/
theorem c8_failed_fetch_leaves_state (refreshSeconds : ℤ)
    (st : ProviderState) (now : ℤ) (e : String)
    (h : isStale refreshSeconds st now = true) :
    get_steps refreshSeconds st now (.error e) = (.error e, st) := by
  simp [get_steps, h]

/-- Witness for C8 on a never-fetched provider state. -/
theorem c8_failed_fetch_leaves_state_witness :
    get_steps 21600 ⟨[((5 : ℤ), (16 : ℚ))], none⟩ 0 (.error "boom") =
      (.error "boom", ⟨[((5 : ℤ), (16 : ℚ))], none⟩) :=
  c8_failed_fetch_leaves_state 21600 ⟨[(5, 16)], none⟩ 0 "boom" (by decide)

/-- C10: the empty-range check runs before the schedule is consulted:
whenever the adjusted end does not lie strictly after the start, the
response is ok with no periods and a zero total, for every schedule
outcome — an empty schedule or even a failing fetch included. -/
theorem c10_empty_range_precedes_schedule (amount : ℚ)
    (startDate endDate : Date) (endInclusive : Bool) (basis : DayCount)
    (stepsResult : Except String (List Step))
    (h : (if endInclusive then endDate + 1 else endDate) ≤ startDate) :
    calc395 amount startDate endDate endInclusive basis stepsResult =
      .ok ⟨[], 0⟩ :=
  calc395_empty_range amount startDate endDate endInclusive basis
    stepsResult h

/-- Witness for C10: an inclusive degenerate range with a failing fetch
still yields the zero result. -/
theorem c10_empty_range_precedes_schedule_witness :
    calc395 1 5 3 true DayCount.d365 (.error "down") = .ok ⟨[], 0⟩ :=
  c10_empty_range_precedes_schedule 1 5 3 true DayCount.d365 (.error "down")
    (by decide)

end Calc395
